import Mathlib

/-!
Verification of the laptop data-collection system (spiders, data cleaner,
database service).  The Python sources are shallowly embedded: strings are
`List Char`/`String`, Python floats are exact rationals (`ℚ`), regular
expressions are transcribed as explicit scanners over character lists, and
the MongoDB upsert becomes a pure function on an optional stored record.
-/

deriving instance DecidableEq for Except

namespace DataCollection

/-! ## Exact rational arithmetic

The kernel-reducible constructor `mkRat` is used for every arithmetic step so
that concrete runs of the embedded code can be settled by `decide`. -/

/-- Exact rational addition. -/
def qAdd (a b : ℚ) : ℚ := mkRat (a.num * b.den + b.num * a.den) (a.den * b.den)

/-- Exact rational subtraction. -/
def qSub (a b : ℚ) : ℚ := mkRat (a.num * b.den - b.num * a.den) (a.den * b.den)

/-- Exact rational multiplication. -/
def qMul (a b : ℚ) : ℚ := mkRat (a.num * b.num) (a.den * b.den)

/-- Exact division by a power of ten. -/
def qDivPow10 (a : ℚ) (k : ℕ) : ℚ := mkRat a.num (a.den * 10 ^ k)

/-- Exact multiplication by a power of ten. -/
def qMulPow10 (a : ℚ) (k : ℕ) : ℚ := mkRat (a.num * 10 ^ k) a.den

/-- Boolean strict comparison (denominators are positive). -/
def qLtB (a b : ℚ) : Bool := a.num * b.den < b.num * a.den

/-- Floor of a rational (denominator is positive). -/
def qFloor (a : ℚ) : ℤ := Int.fdiv a.num a.den

theorem qAdd_eq (a b : ℚ) : qAdd a b = a + b := by
  rw [qAdd, Rat.add_def']

theorem qMul_eq (a b : ℚ) : qMul a b = a * b := by
  rw [qMul, Rat.mul_def, Rat.normalize_eq_mkRat]

/-! ## Character and string primitives -/

/-- Python `\s` (ASCII whitespace, the forms occurring in scraped spec text). -/
def pyIsSpace (c : Char) : Bool :=
  c = ' ' || c = '\t' || c = '\n' || c = '\r' || c = '\x0b' || c = '\x0c'

/-- ASCII lower-casing, as applied by Python `str.lower()` on the ASCII spec
strings handled here. -/
def pyToLower : Char → Char
  | 'A' => 'a' | 'B' => 'b' | 'C' => 'c' | 'D' => 'd' | 'E' => 'e' | 'F' => 'f'
  | 'G' => 'g' | 'H' => 'h' | 'I' => 'i' | 'J' => 'j' | 'K' => 'k' | 'L' => 'l'
  | 'M' => 'm' | 'N' => 'n' | 'O' => 'o' | 'P' => 'p' | 'Q' => 'q' | 'R' => 'r'
  | 'S' => 's' | 'T' => 't' | 'U' => 'u' | 'V' => 'v' | 'W' => 'w' | 'X' => 'x'
  | 'Y' => 'y' | 'Z' => 'z'
  | c => c

/-- ASCII upper-casing, as applied by Python `str.upper()`. -/
def pyToUpper : Char → Char
  | 'a' => 'A' | 'b' => 'B' | 'c' => 'C' | 'd' => 'D' | 'e' => 'E' | 'f' => 'F'
  | 'g' => 'G' | 'h' => 'H' | 'i' => 'I' | 'j' => 'J' | 'k' => 'K' | 'l' => 'L'
  | 'm' => 'M' | 'n' => 'N' | 'o' => 'O' | 'p' => 'P' | 'q' => 'Q' | 'r' => 'R'
  | 's' => 'S' | 't' => 'T' | 'u' => 'U' | 'v' => 'V' | 'w' => 'W' | 'x' => 'X'
  | 'y' => 'Y' | 'z' => 'Z'
  | c => c

/-- `startsWithL hay pat`: `pat` is a leading segment of `hay`. -/
def startsWithL : List Char → List Char → Bool
  | _, [] => true
  | [], _ :: _ => false
  | a :: as, b :: bs => a = b && startsWithL as bs

/-- Case-insensitive version of `startsWithL`. -/
def ciStarts : List Char → List Char → Bool
  | _, [] => true
  | [], _ :: _ => false
  | a :: as, b :: bs => pyToLower a = pyToLower b && ciStarts as bs

/-- Python `pat in hay` (case-sensitive substring test). -/
def containsSub : List Char → List Char → Bool
  | hay, pat =>
    if startsWithL hay pat then true
    else match hay with
      | [] => false
      | _ :: t => containsSub t pat

/-- Case-insensitive substring test (`re.search` of a literal pattern compiled
with `re.IGNORECASE`). -/
def ciContains : List Char → List Char → Bool
  | hay, pat =>
    if ciStarts hay pat then true
    else match hay with
      | [] => false
      | _ :: t => ciContains t pat

/-- Python `str.strip()`. -/
def pyStrip (l : List Char) : List Char :=
  ((l.dropWhile pyIsSpace).reverse.dropWhile pyIsSpace).reverse

/-- Numeric value of a digit string. -/
def digitsToNat (l : List Char) : ℕ :=
  l.foldl (fun a c => 10 * a + (c.toNat - 48)) 0

/-- Python `float()` restricted to the digits-and-dot strings the regexes
produce: at least one digit and at most one dot parse to an exact decimal;
anything else raises `ValueError`, modelled as `none`. -/
def pyFloat (l : List Char) : Option ℚ :=
  let ip := l.takeWhile Char.isDigit
  let rest := l.dropWhile Char.isDigit
  match rest with
  | [] => if ip.isEmpty then none else some (mkRat (digitsToNat ip) 1)
  | '.' :: fp =>
    if fp.all Char.isDigit && !(ip.isEmpty && fp.isEmpty) then
      some (qAdd (mkRat (digitsToNat ip) 1) (qDivPow10 (mkRat (digitsToNat fp) 1) fp.length))
    else none
  | _ => none

/-- CPython `str()` of a float that is an exact short decimal: render with the
least number of fractional digits and always at least one (`3200 ↦ "3200.0"`,
`21/10 ↦ "2.1"`).  This agrees with CPython's shortest-roundtrip float repr on
every decimal value arising from the spec strings in this development. -/
def pyFloatRepr (q : ℚ) : String :=
  let k := (((List.range 18).find? fun k => (qMulPow10 q k).den = 1)).getD 0
  let n := (qMulPow10 q k).num.toNat
  if k = 0 then toString n ++ ".0"
  else
    let ip := n / 10 ^ k
    let fp := n % 10 ^ k
    let fs := toString fp
    toString ip ++ "." ++ String.mk (List.replicate (k - fs.length) '0') ++ fs

/-- Python `round(x, 2)` (round half to even on the exact value). -/
def pyRound2 (q : ℚ) : ℚ :=
  let x := qMulPow10 q 2
  let f : ℤ := qFloor x
  let r := qSub x (mkRat f 1)
  let n : ℤ :=
    if qLtB r (mkRat 1 2) then f
    else if qLtB (mkRat 1 2) r then f + 1
    else if f % 2 = 0 then f else f + 1
  mkRat n 100

/-! ## Search combinators

`re.search` tries the pattern at positions 0, 1, 2, … of the subject and
returns the first success; `re.finditer` yields non-overlapping matches
scanning left to right.  Every pattern in this code base consumes at least one
character, so a fuel of the subject's length suffices for the finditer loop. -/

/-- Leftmost match: try `stepAt` at every suffix, first success wins. -/
def searchFirst (stepAt : List Char → Option α) : List Char → Option α
  | [] => none
  | c :: rest =>
    match stepAt (c :: rest) with
    | some x => some x
    | none => searchFirst stepAt rest

/-- All non-overlapping matches; `step` returns the matched text and the
remainder after the match. -/
def scanAllF (step : List Char → Option (List Char × List Char)) :
    ℕ → List Char → List (List Char)
  | 0, _ => []
  | _ + 1, [] => []
  | n + 1, c :: rest =>
    match step (c :: rest) with
    | some (m, rem) => m :: scanAllF step n rem
    | none => scanAllF step n rest

/-! ## Spec-table access

An extracted spec table is an association list of lower-snake-case field names
to cleaned text (`AmazonSpider._extract_technical_specs`). -/

/-- `next((specs.get(key, '') for key in keys if key in specs), '')`:
value of the first present key, else `''`. -/
def firstSpecVal (specs : List (String × String)) (keys : List String) : String :=
  ((keys.findSome? fun k => (specs.find? (·.1 = k)).map (·.2))).getD ""

/-- `' '.join(specs.get(key, '') for key in keys if key in specs)`. -/
def joinSpecVals (specs : List (String × String)) (keys : List String) : String :=
  String.intercalate " " (keys.filterMap fun k => (specs.find? (·.1 = k)).map (·.2))

/-! ## Processor extractor (`AmazonSpider._extract_processor_info`) -/

/-- Result shape of `_extract_processor_info` (all leaves default to `""`). -/
structure ProcessorRec where
  brand : String := ""
  model : String := ""
  generation : String := ""
  speed : String := ""
  cores : String := ""
deriving DecidableEq, Repr

/-- `re.search(r'(\d+)(?:th|st|nd|rd)\s*Gen', info, re.IGNORECASE)`, returning
group 1.  The digit group is greedy; shortening it would leave a digit before
the ordinal suffix, which cannot match, so greedy maximal digits are complete. -/
def genSearchAt (l : List Char) : Option (List Char) :=
  let ds := l.takeWhile Char.isDigit
  if ds.isEmpty then none
  else
    let r := l.dropWhile Char.isDigit
    if ciStarts r "th".data || ciStarts r "st".data ||
        ciStarts r "nd".data || ciStarts r "rd".data then
      let r2 := (r.drop 2).dropWhile pyIsSpace
      if ciStarts r2 "gen".data then some ds else none
    else none

def genSearch (l : List Char) : Option (List Char) := searchFirst genSearchAt l

/-- `re.search(r'ryzen\s*\d', info, re.IGNORECASE)` success test. -/
def ryzenSearchAt (l : List Char) : Option Unit :=
  if ciStarts l "ryzen".data then
    match (l.drop 5).dropWhile pyIsSpace with
    | c :: _ => if c.isDigit then some () else none
    | [] => none
  else none

def ryzenFound (l : List Char) : Bool := (searchFirst ryzenSearchAt l).isSome

/-- The ordered `cpu_models` table: first pattern with a match wins. -/
def cpuModel (info : List Char) : String :=
  if ciContains info "i3".data then "Core i3"
  else if ciContains info "i5".data then "Core i5"
  else if ciContains info "i7".data then "Core i7"
  else if ciContains info "i9".data then "Core i9"
  else if ryzenFound info then "Ryzen"
  else if ciContains info "celeron".data then "Celeron"
  else if ciContains info "pentium".data then "Pentium"
  else ""

/-- `re.search(r'([\d.]+)\s*(?:GHz|MHz)', info, re.IGNORECASE)`, returning
(group 1, whole match).  `[\d.]+` is greedy; a shortened group would leave a
digit or dot where `\s*(?:GHz|MHz)` must start, which cannot match, so greedy
maximal is complete. -/
def speedSearchAt (l : List Char) : Option (List Char × List Char) :=
  let tok := l.takeWhile fun c => c.isDigit || c = '.'
  if tok.isEmpty then none
  else
    let r := l.dropWhile fun c => c.isDigit || c = '.'
    let sp := r.takeWhile pyIsSpace
    let r2 := r.dropWhile pyIsSpace
    if ciStarts r2 "ghz".data || ciStarts r2 "mhz".data then
      some (tok, tok ++ sp ++ r2.take 3)
    else none

def speedSearch (l : List Char) : Option (List Char × List Char) :=
  searchFirst speedSearchAt l

/-- `re.search(r'(\d+)\s*(?:cores?|processors?)', info, re.IGNORECASE)`,
returning group 1 (a match of the alternation needs only the stem). -/
def coresSearchAt (l : List Char) : Option (List Char) :=
  let ds := l.takeWhile Char.isDigit
  if ds.isEmpty then none
  else
    let r2 := (l.dropWhile Char.isDigit).dropWhile pyIsSpace
    if ciStarts r2 "core".data || ciStarts r2 "processor".data then some ds
    else none

def coresSearch (l : List Char) : Option (List Char) := searchFirst coresSearchAt l

def processorKeys : List String := ["processor_type", "processor", "cpu_model"]

def processorBrands : List String := ["Intel", "AMD", "Apple"]

/-- The speed-field computation of `_extract_processor_info`: regex search,
`float()` on group 1 (which can raise `ValueError`, modelled by `Except` —
the group pattern `[\d.]+` admits non-numbers such as `1.2.3`), then
`"MHz" if "MHz" in match.group().upper() else "GHz"` as unit. -/
def speedResult (info : List Char) : Except Unit String :=
  match speedSearch info with
  | none => .ok ""
  | some (tok, whole) =>
    match pyFloat tok with
    | none => .error ()
    | some q =>
      let unit :=
        if containsSub (whole.map pyToUpper) "MHz".data then "MHz" else "GHz"
      .ok (pyFloatRepr q ++ " " ++ unit)

/-- `AmazonSpider._extract_processor_info`: brand by ordered case-insensitive
substring scan, generation and speed and cores by regex search, model by the
ordered `cpu_models` table; an uncaught `ValueError` from the speed conversion
aborts the whole extractor. -/
def extractProcessorInfo (specs : List (String × String)) :
    Except Unit ProcessorRec :=
  let info := (firstSpecVal specs processorKeys).data
  if info.isEmpty then .ok {}
  else
    match speedResult info with
    | .error e => .error e
    | .ok sp =>
      .ok { brand :=
              ((processorBrands.find? fun b =>
                containsSub (info.map pyToLower) (b.data.map pyToLower))).getD ""
            model := cpuModel info
            generation :=
              match genSearch info with
              | some ds => String.mk ds ++ "th Gen"
              | none => ""
            speed := sp
            cores := ((coresSearch info).map String.mk).getD "" }

/-! ## RAM extractor (`AmazonSpider._extract_ram_info`) -/

structure RamRec where
  size : String := ""
  type : String := ""
  speed : String := ""
deriving DecidableEq, Repr

/-- `re.search(r'(\d+)\s*GB', info, re.IGNORECASE)`, group 1. -/
def sizeGBSearch (l : List Char) : Option (List Char) :=
  searchFirst
    (fun s =>
      let ds := s.takeWhile Char.isDigit
      if ds.isEmpty then none
      else if ciStarts ((s.dropWhile Char.isDigit).dropWhile pyIsSpace) "gb".data then
        some ds
      else none) l

/-- `re.search(r'(\d+)\s*MHz', info, re.IGNORECASE)`, group 1. -/
def mhzSearch (l : List Char) : Option (List Char) :=
  searchFirst
    (fun s =>
      let ds := s.takeWhile Char.isDigit
      if ds.isEmpty then none
      else if ciStarts ((s.dropWhile Char.isDigit).dropWhile pyIsSpace) "mhz".data then
        some ds
      else none) l

def ramKeys : List String := ["ram", "memory", "ram_memory_installed_size"]

/-- The ordered `ram_types` list of `_extract_ram_info`; membership is the
case-sensitive Python `in`, first hit wins. -/
def ramTypes : List String := ["DDR4", "DDR5", "LPDDR4", "LPDDR4X", "LPDDR5"]

/-- `AmazonSpider._extract_ram_info`. -/
def extractRamInfo (specs : List (String × String)) : RamRec :=
  let info := (firstSpecVal specs ramKeys).data
  if info.isEmpty then {}
  else
    { size :=
        match sizeGBSearch info with
        | some ds => String.mk ds ++ "GB"
        | none => ""
      type := ((ramTypes.find? fun t => containsSub info t.data)).getD ""
      speed :=
        match mhzSearch info with
        | some ds => String.mk ds ++ "MHz"
        | none => "" }

/-- `DataCleaner.clean_ram_info` (the Flipkart path): same shape, shorter type
table, `re.search(r'(\d+)\s*GB', ...)` without IGNORECASE. -/
def cleanRamInfo (ram_info : List Char) : List (String × String) :=
  let size :=
    match searchFirst
      (fun s =>
        let ds := s.takeWhile Char.isDigit
        if ds.isEmpty then none
        else if startsWithL ((s.dropWhile Char.isDigit).dropWhile pyIsSpace) "GB".data then
          some ds
        else none) ram_info with
    | some ds => String.mk ds ++ "GB"
    | none => ""
  let type :=
    ((["DDR4", "DDR5", "LPDDR4", "LPDDR5"].find? fun t =>
      containsSub ram_info t.data)).getD ""
  [("size", size), ("type", type)]

/-! ## Price normalizers -/

/-- `utils/helpers.py parse_price`: `re.sub(r'[^\d.]', '', s)` then `float`,
`0.0` on any failure. -/
def parse_price (l : List Char) : ℚ :=
  match pyFloat (l.filter fun c => c.isDigit || c = '.') with
  | some q => q
  | none => 0

/-- `DataCleaner.clean_price` (identical body to `parse_price`). -/
def cleanPrice (l : List Char) : ℚ := parse_price l

/-- `BaseSpider._extract_price`: `price_text.replace(',', '')`, then keep only
characters for which `str.isdigit` holds, then `float`; `ValueError` on an
empty digit string is caught and gives `0.0`. -/
def extractPrice (l : List Char) : ℚ :=
  let digits := (l.filter fun c => c ≠ ',').filter Char.isDigit
  match pyFloat digits with
  | some q => q
  | none => 0

/-- `AmazonSpider._extract_current_price`: the page is abstracted as the list
of per-selector query results, in the order of `price_selectors`; the first
selector that yields an element wins, its text going through
`BaseSpider._extract_price`; otherwise `0.0`. -/
def extractCurrentPrice (page : List (Option String)) : ℚ :=
  match page.findSome? id with
  | some t => extractPrice t.data
  | none => 0

/-! ## Dimensions extractor (`AmazonSpider._extract_dimensions_info`) -/

structure DimensionsRec where
  length : ℚ := 0
  width : ℚ := 0
  height : ℚ := 0
  weight : ℚ := 0
deriving DecidableEq, Repr

/-- One number of the dimension pattern, `\d+\.?\d*` (greedy): digits, then an
optional dot with following digits.  Returns the token and the remainder. -/
def numTok (l : List Char) : Option (List Char × List Char) :=
  let d1 := l.takeWhile Char.isDigit
  if d1.isEmpty then none
  else
    match l.dropWhile Char.isDigit with
    | '.' :: r2 => some (d1 ++ '.' :: r2.takeWhile Char.isDigit, r2.dropWhile Char.isDigit)
    | r1 => some (d1, r1)

/-- Attempt of `(\d+\.?\d*)\s*x\s*(\d+\.?\d*)\s*x\s*(\d+\.?\d*)\s*(?:cm|mm|inches)`
at one position, with `sep` deciding the separator class (`x` under
`re.IGNORECASE`, or `[×x]` for the second pattern).  The numeric groups are
greedy; shortening one leaves a digit or dot where `\s*` + separator/unit must
continue, which cannot match, so greedy maximal groups are complete. -/
def dims3At (sep : Char → Bool) (l : List Char) : Option (List Char × List Char × List Char) := do
  let (a, r1) ← numTok l
  match r1.dropWhile pyIsSpace with
  | c1 :: r2 =>
    if sep c1 then
      let (b, r3) ← numTok (r2.dropWhile pyIsSpace)
      match r3.dropWhile pyIsSpace with
      | c2 :: r4 =>
        if sep c2 then
          let (c, r5) ← numTok (r4.dropWhile pyIsSpace)
          let r6 := r5.dropWhile pyIsSpace
          if ciStarts r6 "cm".data || ciStarts r6 "mm".data || ciStarts r6 "inches".data then
            some (a, b, c)
          else none
        else none
      | [] => none
    else none
  | [] => none

/-- The `for pattern in dimension_patterns` loop: first the `x`-separator
pattern, then the `[×x]` one. -/
def dimsSearch (l : List Char) : Option (List Char × List Char × List Char) :=
  match searchFirst (dims3At fun c => c = 'x' || c = 'X') l with
  | some t => some t
  | none => searchFirst (dims3At fun c => c = 'x' || c = 'X' || c = '×') l

def dimensionKeys : List String := ["dimensions", "product_dimensions", "item_dimensions"]

def weightKeys : List String := ["weight", "item_weight", "product_weight"]

/-- `re.search(r'(\d+\.?\d*)\s*(kg|pounds?|lbs?|g)', info, re.IGNORECASE)`:
returns (group 1, unit text lower-cased as the code immediately does). -/
def weightSearchAt (l : List Char) : Option (List Char × String) := do
  let (n, r) ← numTok l
  let r2 := r.dropWhile pyIsSpace
  if ciStarts r2 "kg".data then some (n, "kg")
  else if ciStarts r2 "pounds".data then some (n, "pounds")
  else if ciStarts r2 "pound".data then some (n, "pound")
  else if ciStarts r2 "lbs".data then some (n, "lbs")
  else if ciStarts r2 "lb".data then some (n, "lb")
  else if ciStarts r2 "g".data then some (n, "g")
  else none

/-- `AmazonSpider._extract_dimensions_info`. -/
def extractDimensionsInfo (specs : List (String × String)) : DimensionsRec :=
  let info := (firstSpecVal specs dimensionKeys).data
  let base : DimensionsRec :=
    if info.isEmpty then {}
    else
      match dimsSearch info with
      | some (a, b, c) =>
        let mult : ℚ :=
          if containsSub (info.map pyToLower) "mm".data then mkRat 1 10
          else if containsSub (info.map pyToLower) "inches".data then mkRat 254 100
          else 1
        { length := pyRound2 (qMul ((pyFloat a).getD 0) mult)
          width := pyRound2 (qMul ((pyFloat b).getD 0) mult)
          height := pyRound2 (qMul ((pyFloat c).getD 0) mult) }
      | none => {}
  let winfo := (firstSpecVal specs weightKeys).data
  if winfo.isEmpty then base
  else
    match searchFirst weightSearchAt winfo with
    | some (n, unit) =>
      let w := (pyFloat n).getD 0
      let w :=
        if startsWithL unit.data "pound".data || startsWithL unit.data "lb".data then
          qMul w (mkRat 453592 1000000)
        else if startsWithL unit.data "g".data then qMul w (mkRat 1 1000)
        else w
      { base with weight := pyRound2 w }
    | none => base

/-! ## Ports extractor (`AmazonSpider._extract_ports_info`)

Each entry of `port_patterns` becomes a step function returning the matched
text and the remainder.  Optional tails are taken greedily; for these patterns
a greedy parse is complete because every optional element starts with a
character class disjoint from what follows it. -/

/-- Helper: if `pat` starts `l` case-insensitively, split off that many
characters of the original text. -/
def ciSplit (pat : List Char) (l : List Char) : Option (List Char × List Char) :=
  if ciStarts l pat then some (l.take pat.length, l.drop pat.length) else none

/-- Plain case-insensitive literal pattern step. -/
def litStep (pat : List Char) (l : List Char) : Option (List Char × List Char) :=
  ciSplit pat l

/-- Take an optional single character satisfying `p`. -/
def optChar (p : Char → Bool) : List Char → (List Char × List Char)
  | [] => ([], [])
  | c :: r => if p c then ([c], r) else ([], c :: r)

/-- Take an optional greedy run of whitespace. -/
def optSpaces (l : List Char) : List Char × List Char :=
  (l.takeWhile pyIsSpace, l.dropWhile pyIsSpace)

/-- Take an optional case-insensitive literal. -/
def optLit (pat : List Char) (l : List Char) : List Char × List Char :=
  if ciStarts l pat then (l.take pat.length, l.drop pat.length) else ([], l)

/-- `r'USB (?:\d\.?\d?)(?: Type-[A-C])?'`. -/
def usbStep (l : List Char) : Option (List Char × List Char) := do
  let (m1, r1) ← ciSplit "usb ".data l
  match r1 with
  | d :: r2 =>
    if d.isDigit then
      let (m2, r3) := optChar (· = '.') r2
      let (m3, r4) := optChar Char.isDigit r3
      let (m4, r5) :=
        match ciSplit " type-".data r4 with
        | some (t, c :: r) =>
          if ('a' ≤ pyToLower c ∧ pyToLower c ≤ 'c') then (t ++ [c], r) else ([], r4)
        | _ => ([], r4)
      some (m1 ++ d :: (m2 ++ m3 ++ m4), r5)
    else none
  | [] => none

/-- `r'Thunderbolt\s*\d?'`. -/
def thunderboltStep (l : List Char) : Option (List Char × List Char) := do
  let (m1, r1) ← ciSplit "thunderbolt".data l
  let (m2, r2) := optSpaces r1
  let (m3, r3) := optChar Char.isDigit r2
  some (m1 ++ m2 ++ m3, r3)

/-- `r'HDMI ?\d?\.?\d?[a-z]?'` (the trailing class is case-insensitive). -/
def hdmiStep (l : List Char) : Option (List Char × List Char) := do
  let (m1, r1) ← ciSplit "hdmi".data l
  let (m2, r2) := optChar (· = ' ') r1
  let (m3, r3) := optChar Char.isDigit r2
  let (m4, r4) := optChar (· = '.') r3
  let (m5, r5) := optChar Char.isDigit r4
  let (m6, r6) := optChar (fun c => 'a' ≤ pyToLower c ∧ pyToLower c ≤ 'z') r5
  some (m1 ++ m2 ++ m3 ++ m4 ++ m5 ++ m6, r6)

/-- `r'DisplayPort(?:\s*\d?\.?\d?)?'`. -/
def displayPortStep (l : List Char) : Option (List Char × List Char) := do
  let (m1, r1) ← ciSplit "displayport".data l
  let (m2, r2) := optSpaces r1
  let (m3, r3) := optChar Char.isDigit r2
  let (m4, r4) := optChar (· = '.') r3
  let (m5, r5) := optChar Char.isDigit r4
  some (m1 ++ m2 ++ m3 ++ m4 ++ m5, r5)

/-- `r'(?:3\.5mm|audio|headphone|mic)(?:\s+)?(?:combo)?(?:\s+)?jack'`; the
alternatives begin with pairwise distinct letters, so ordered choice without
backtracking is complete. -/
def audioJackStep (l : List Char) : Option (List Char × List Char) := do
  let (m1, r1) ←
    match ciSplit "3.5mm".data l with
    | some x => some x
    | none =>
      match ciSplit "audio".data l with
      | some x => some x
      | none =>
        match ciSplit "headphone".data l with
        | some x => some x
        | none => ciSplit "mic".data l
  let (m2, r2) := optSpaces r1
  let (m3, r3) := optLit "combo".data r2
  let (m4, r4) := optSpaces r3
  let (m5, r5) ← ciSplit "jack".data r4
  some (m1 ++ m2 ++ m3 ++ m4 ++ m5, r5)

/-- `r'Audio(?:\s+)?(?:Combo)?(?:\s+)?Jack'`. -/
def audioComboJackStep (l : List Char) : Option (List Char × List Char) := do
  let (m1, r1) ← ciSplit "audio".data l
  let (m2, r2) := optSpaces r1
  let (m3, r3) := optLit "combo".data r2
  let (m4, r4) := optSpaces r3
  let (m5, r5) ← ciSplit "jack".data r4
  some (m1 ++ m2 ++ m3 ++ m4 ++ m5, r5)

/-- The ordered `port_patterns` table. -/
def portSteps : List (List Char → Option (List Char × List Char)) :=
  [ usbStep
  , litStep "type-c".data
  , thunderboltStep
  , hdmiStep
  , displayPortStep
  , litStep "vga".data
  , litStep "d-sub".data
  , litStep "rj45".data
  , litStep "ethernet".data
  , audioJackStep
  , audioComboJackStep
  , litStep "sd card reader".data
  , litStep "microsd slot".data
  , litStep "kensington lock".data ]

def portKeys : List String :=
  ["ports", "connectivity_type", "hardware_interface", "interfaces"]

/-- Code-point lexicographic comparison of character lists: Python's string
order, used by `sorted`. -/
def lexLe : List Char → List Char → Bool
  | [], _ => true
  | _ :: _, [] => false
  | x :: xs, y :: ys => if x = y then lexLe xs ys else decide (x < y)

/-- Python `s1 <= s2` on strings. -/
def strLe (a b : String) : Bool := lexLe a.data b.data

/-- Insert into a sorted list (one step of sorting). -/
def insertSorted (x : String) : List String → List String
  | [] => [x]
  | y :: ys => if strLe x y then x :: y :: ys else y :: insertSorted x ys

/-- `sorted(...)` on a list of strings. -/
def sortStrs : List String → List String
  | [] => []
  | x :: xs => insertSorted x (sortStrs xs)

/-- `AmazonSpider._extract_ports_info`: run every pattern's `finditer` over
the joined candidate text, adding `match.group().strip()` to a set, and
return `sorted(list(ports))`.  Set insertion is modelled by `dedup`
(order-irrelevant: the result is sorted afterwards), sorting by insertion sort
under the code-point lexicographic order, which is Python's string order. -/
def extractPortsInfo (specs : List (String × String)) : List String :=
  let info := (joinSpecVals specs portKeys).data
  if info.isEmpty then []
  else
    let found :=
      (portSteps.map fun step =>
        (scanAllF step info.length info).map fun m => String.mk (pyStrip m)).flatten
    sortStrs found.dedup

/-! ## Data model (`database/models.py`) and persistence (`database/db_service.py`)

`datetime` values become abstract instants (`ℕ`). -/

structure StorageRec where
  primary_type : String := ""
  primary_capacity : String := ""
  secondary_type : String := ""
  secondary_capacity : String := ""
deriving DecidableEq, Repr

structure DisplayRec where
  size : String := ""
  resolution : String := ""
  type : String := ""
  refresh_rate : String := ""
  nits : String := ""
deriving DecidableEq, Repr

structure GraphicsRec where
  type : String := ""
  brand : String := ""
  model : String := ""
  memory : String := ""
deriving DecidableEq, Repr

structure BatteryRec where
  capacity : String := ""
  type : String := ""
  watt_hours : String := ""
  cells : String := ""
deriving DecidableEq, Repr

/-- `LaptopSpecs` with the default factories of `models.py`. -/
structure LaptopSpecs where
  processor : ProcessorRec := {}
  ram : RamRec := {}
  storage : StorageRec := {}
  display : DisplayRec := {}
  graphics : GraphicsRec := {}
  os : String := ""
  battery : BatteryRec := {}
  ports : List String := []
  dimensions : DimensionsRec := {}
  additional_features : List (String × String) := []
deriving DecidableEq, Repr

/-- `PriceHistory` entries. -/
structure PriceEntry where
  price : ℚ
  date : ℕ
  source : String
deriving DecidableEq, Repr

/-- The `Laptop` document. -/
structure Laptop where
  product_id : String
  source : String
  url : String
  title : String
  brand : String
  model : String
  current_price : ℚ
  original_price : ℚ
  ratings_count : ℕ := 0
  average_rating : ℚ := 0
  specifications : LaptopSpecs
  in_stock : Bool := true
  last_updated : ℕ
  first_seen : ℕ
  price_history : List PriceEntry := []
deriving DecidableEq, Repr

/-- `DatabaseService.insert_laptop`: an upsert keyed on `product_id` whose
`$set` document is `laptop.dict(exclude={"first_seen"})` — every field of the
observed record, `price_history` included — and whose `$setOnInsert` sets
`first_seen` to the database-side now.  The stored document for that product
before the call is `stored`. -/
def insertLaptop (stored : Option Laptop) (laptop : Laptop) (now : ℕ) : Laptop :=
  match stored with
  | none => { laptop with first_seen := now }
  | some prior => { laptop with first_seen := prior.first_seen }

/-- A `Laptop` as `AmazonSpider.extract_product_data` builds it for one
observation of a product: `price_history` is the pydantic default `[]`
(the spider never fills it) and `first_seen`/`in_stock` keep their default
factories. -/
def spiderObservation (pid : String) (price : ℚ) (now : ℕ) : Laptop :=
  { product_id := pid
    source := "Amazon"
    url := "https://www.amazon.in/dp/" ++ pid
    title := "Test Laptop"
    brand := "Unknown"
    model := ""
    current_price := price
    original_price := price
    specifications := {}
    last_updated := now
    first_seen := now }

/-- One crawl pass per observed price: extract, then
`DatabaseService.insert_laptop` against the current stored document. -/
def reconcilePrices (pid : String) (prices : List ℚ) : Option Laptop :=
  prices.foldl (fun stored p => some (insertLaptop stored (spiderObservation pid p 0) 0)) none

/-! ## `utils/helpers.py merge_specs`

The dict-of-strings-and-dicts fragment of the Python values `merge_specs`
traverses (a serialized `LaptopSpecs` is of this shape). -/

inductive SpecVal where
  | s (v : String)
  | d (m : List (String × SpecVal))

/-- `merged[key] = value`, keeping dict insertion order. -/
def setKey (m : List (String × SpecVal)) (k : String) (v : SpecVal) :
    List (String × SpecVal) :=
  if m.any (·.1 = k) then m.map fun e => if e.1 = k then (k, v) else e
  else m ++ [(k, v)]

mutual

/-- `merge_specs(old_specs, new_specs)`: start from a copy of the old dict;
a dict value recurses, a non-dict value is written only when truthy
(non-empty).  (On shape-aligned records the recursive call always sees two
dicts; the non-dict fallback is unreachable there.) -/
def mergeSpecs : SpecVal → SpecVal → SpecVal
  | SpecVal.d old, SpecVal.d new => SpecVal.d (mergeEntries old new)
  | _, v => v

/-- The `for key, value in new_specs.items()` loop over `merged`. -/
def mergeEntries (old : List (String × SpecVal)) : List (String × SpecVal) →
    List (String × SpecVal)
  | [] => old
  | (k, SpecVal.d m) :: rest =>
    mergeEntries
      (if old.any (·.1 = k) then
        setKey old k (mergeSpecs ((((old.find? (·.1 = k))).map (·.2)).getD (SpecVal.d []))
          (SpecVal.d m))
      else setKey old k (SpecVal.d m)) rest
  | (k, SpecVal.s v) :: rest =>
    mergeEntries (if v ≠ "" then setKey old k (SpecVal.s v) else old) rest

end

/-! ## Supporting lemmas -/

theorem pyToUpper_ne_z (c : Char) : pyToUpper c ≠ 'z' := by
  unfold pyToUpper
  split <;> simp_all

theorem mem_of_startsWith {hay pat : List Char} (h : startsWithL hay pat = true)
    {c : Char} (hc : c ∈ pat) : c ∈ hay := by
  induction pat generalizing hay with
  | nil => cases hc
  | cons b bs ih =>
    cases hay with
    | nil => simp [startsWithL] at h
    | cons a as =>
      simp only [startsWithL, Bool.and_eq_true, decide_eq_true_eq] at h
      rcases List.mem_cons.mp hc with h1 | h1
      · rw [h1, ← h.1]
        exact List.mem_cons_self a as
      · exact List.mem_cons_of_mem a (ih h.2 h1)

theorem mem_of_containsSub {hay pat : List Char} (h : containsSub hay pat = true)
    {c : Char} (hc : c ∈ pat) : c ∈ hay := by
  induction hay with
  | nil =>
    cases pat with
    | nil => cases hc
    | cons b bs => simp [containsSub, startsWithL] at h
  | cons a as ih =>
    rw [containsSub] at h
    split at h
    · exact mem_of_startsWith (by assumption) hc
    · exact List.mem_cons_of_mem a (ih h)

/-- Upper-cased text never contains the mixed-case token `"MHz"`: no character
upper-cases to a lowercase `z`. -/
theorem upper_not_contains_mhz (l : List Char) :
    containsSub (l.map pyToUpper) "MHz".data = false := by
  by_contra hne
  have h : containsSub (l.map pyToUpper) "MHz".data = true := by
    cases hc : containsSub (l.map pyToUpper) "MHz".data
    · exact absurd hc hne
    · rfl
  have hz : 'z' ∈ l.map pyToUpper := mem_of_containsSub h (by decide)
  obtain ⟨c, -, hc⟩ := List.mem_map.mp hz
  exact pyToUpper_ne_z c hc

theorem lexLe_total (a b : List Char) : lexLe a b = true ∨ lexLe b a = true := by
  induction a generalizing b with
  | nil => exact .inl rfl
  | cons x xs ih =>
    cases b with
    | nil => exact .inr rfl
    | cons y ys =>
      by_cases hxy : x = y
      · subst hxy
        simpa [lexLe] using ih ys
      · rcases lt_or_gt_of_ne hxy with hlt | hgt
        · exact .inl (by simp [lexLe, hxy, hlt])
        · exact .inr (by simp [lexLe, Ne.symm hxy, hgt])

theorem lexLe_trans {a b c : List Char} (h1 : lexLe a b = true)
    (h2 : lexLe b c = true) : lexLe a c = true := by
  induction a generalizing b c with
  | nil => rfl
  | cons x xs ih =>
    cases b with
    | nil => simp [lexLe] at h1
    | cons y ys =>
      cases c with
      | nil => simp [lexLe] at h2
      | cons z zs =>
        simp only [lexLe] at h1 h2 ⊢
        by_cases hxy : x = y
        · subst hxy
          simp only [if_pos rfl] at h1
          by_cases hyz : x = z
          · subst hyz
            simp only [if_pos rfl] at h2 ⊢
            exact ih h1 h2
          · simpa [hyz] using (by simpa [hyz] using h2 : x < z)
        · simp only [if_neg hxy, decide_eq_true_eq] at h1
          by_cases hyz : y = z
          · subst hyz
            simp [hxy, h1]
          · simp only [if_neg hyz, decide_eq_true_eq] at h2
            have hxz : x < z := lt_trans h1 h2
            simp [ne_of_lt hxz, hxz]

theorem strLe_total (a b : String) : strLe a b = true ∨ strLe b a = true :=
  lexLe_total a.data b.data

theorem strLe_trans {a b c : String} (h1 : strLe a b = true)
    (h2 : strLe b c = true) : strLe a c = true :=
  lexLe_trans h1 h2

theorem mem_insertSorted {a x : String} {l : List String} :
    a ∈ insertSorted x l ↔ a = x ∨ a ∈ l := by
  induction l with
  | nil => simp [insertSorted]
  | cons y ys ih =>
    by_cases h : strLe x y = true
    · simp [insertSorted, h]
    · simp only [insertSorted, if_neg h, List.mem_cons, ih]
      tauto

theorem perm_insertSorted (x : String) (l : List String) :
    List.Perm (insertSorted x l) (x :: l) := by
  induction l with
  | nil => rfl
  | cons y ys ih =>
    by_cases h : strLe x y = true
    · simp [insertSorted, h]
    · simp only [insertSorted, if_neg h]
      exact (ih.cons y).trans (List.Perm.swap x y ys)

theorem perm_sortStrs (l : List String) : List.Perm (sortStrs l) l := by
  induction l with
  | nil => rfl
  | cons x xs ih => exact (perm_insertSorted x (sortStrs xs)).trans (ih.cons x)

theorem pairwise_insertSorted {x : String} {l : List String}
    (h : l.Pairwise fun a b => strLe a b = true) :
    (insertSorted x l).Pairwise fun a b => strLe a b = true := by
  induction l with
  | nil => simp [insertSorted]
  | cons y ys ih =>
    rcases List.pairwise_cons.mp h with ⟨hy, hys⟩
    by_cases hxy : strLe x y = true
    · rw [insertSorted, if_pos hxy]
      refine List.pairwise_cons.mpr ⟨?_, h⟩
      intro z hz
      rcases List.mem_cons.mp hz with rfl | hz
      · exact hxy
      · exact strLe_trans hxy (hy z hz)
    · rw [insertSorted, if_neg hxy]
      refine List.pairwise_cons.mpr ⟨?_, ih hys⟩
      intro z hz
      rcases mem_insertSorted.mp hz with hzx | hz
      · rw [hzx]
        exact (strLe_total _ _).resolve_left hxy
      · exact hy z hz

theorem pairwise_sortStrs (l : List String) :
    (sortStrs l).Pairwise fun a b => strLe a b = true := by
  induction l with
  | nil => exact List.Pairwise.nil
  | cons x xs ih => exact pairwise_insertSorted ih

theorem takeWhile_of_all {l : List Char} (h : l.all Char.isDigit = true) :
    l.takeWhile Char.isDigit = l := by
  induction l with
  | nil => rfl
  | cons c cs ih =>
    simp only [List.all_cons, Bool.and_eq_true] at h
    simp [List.takeWhile_cons, h.1, ih h.2]

theorem dropWhile_of_all {l : List Char} (h : l.all Char.isDigit = true) :
    l.dropWhile Char.isDigit = [] := by
  induction l with
  | nil => rfl
  | cons c cs ih =>
    simp only [List.all_cons, Bool.and_eq_true] at h
    simp [List.dropWhile_cons, h.1, ih h.2]

theorem pyFloat_all_digits {l : List Char} (h : l.all Char.isDigit = true) :
    pyFloat l = if l.isEmpty then none else some (mkRat (digitsToNat l) 1) := by
  rw [pyFloat]
  simp only [takeWhile_of_all h, dropWhile_of_all h]

theorem exists_ghz (a : String) : ∃ p, a ++ " " ++ "GHz" = p ++ " GHz" :=
  ⟨a, by rw [String.append_assoc]; rfl⟩

/-- Any speed string the processor extractor can produce carries the unit
`GHz`: the Python test `"MHz" in match.group().upper()` is always false. -/
theorem speedResult_ghz {info : List Char} {sp : String}
    (h : speedResult info = .ok sp) : sp = "" ∨ ∃ p, sp = p ++ " GHz" := by
  rw [speedResult] at h
  split at h
  · cases h
    exact .inl rfl
  · split at h
    · cases h
    · cases h
      right
      rw [upper_not_contains_mhz]
      exact exists_ghz _

/-- `BaseSpider._extract_price` always returns a whole number: every
non-digit, the decimal point included, has been removed before `float`. -/
theorem extractPrice_den_one (l : List Char) : (extractPrice l).den = 1 := by
  rw [extractPrice]
  have hall : ((l.filter fun c => c ≠ ',').filter Char.isDigit).all Char.isDigit = true := by
    rw [List.all_eq_true]
    intro c hc
    exact (List.mem_filter.mp hc).2
  rw [pyFloat_all_digits hall]
  by_cases he : ((l.filter fun c => c ≠ ',').filter Char.isDigit).isEmpty
  · rw [if_pos he]
    rfl
  · rw [if_neg he]
    simp [Rat.mkRat_one]

/-! ## Fixtures for the reconciliation claims -/

/-- A stored record whose earlier, stronger extraction pass found
`ram.type = "DDR4"`. -/
def priorStored : Laptop :=
  { spiderObservation "B0TEST12" 50000 0 with
    specifications := { ram := { size := "16GB", type := "DDR4" } } }

/-- A later observation of the same product where the weaker extraction pass
left `ram.type` at its default `""`. -/
def weakObservation : Laptop :=
  { spiderObservation "B0TEST12" 50000 7 with
    specifications := { ram := { size := "16GB", type := "" } } }

/-! ## Claim theorems -/

/-- C1: the claim says a `{price, date, source}` entry is appended to
`price_history` exactly when the observed price differs from the latest entry,
so reconciling prices [50000, 50000, 45000, 45000, 48000] should leave 3
entries.  The code has no such reconciler: `insert_laptop`'s `$set` writes the
observed record's `price_history` — always the pydantic default `[]` — so
after the whole sequence the stored history is empty. -/
theorem price_history_never_appended :
    ∃ rec : Laptop,
      reconcilePrices "B0TEST12" [50000, 50000, 45000, 45000, 48000] = some rec ∧
      rec.price_history = [] ∧ rec.price_history.length = 0 :=
  ⟨_, rfl, rfl, rfl⟩

/-- C2: the claim says a reconciled record keeps the prior non-empty
`ram.type = "DDR4"` when the new extraction has `ram.type = ""`.  The persisted
record instead carries the new empty value: `insert_laptop` `$set`s the whole
`specifications` object and never calls `merge_specs` — which, as the last
conjunct shows, would have kept `"DDR4"`. -/
theorem prior_ram_type_overwritten :
    (insertLaptop (some priorStored) weakObservation 7).specifications.ram.type = "" ∧
    priorStored.specifications.ram.type = "DDR4" ∧
    mergeSpecs (SpecVal.d [("ram", SpecVal.d [("type", SpecVal.s "DDR4")])])
        (SpecVal.d [("ram", SpecVal.d [("type", SpecVal.s "")])]) =
      SpecVal.d [("ram", SpecVal.d [("type", SpecVal.s "DDR4")])] := by
  refine ⟨rfl, rfl, ?_⟩
  simp [mergeSpecs, mergeEntries, setKey]

/-- C3: the claim says every field extractor is total and never raises.  The
processor extractor raises `ValueError` on the spec text `"Intel 1.2.3 GHz"`:
the speed group `[\d.]+` matches `1.2.3`, which `float()` rejects. -/
theorem processor_extractor_raises_on_multidot_speed :
    extractProcessorInfo [("processor", "Intel 1.2.3 GHz")] = .error () := by
  decide

/-- C4: the claim says `"16GB LPDDR4X"` yields `type = "LPDDR4X"` because
longer tokens are checked first.  The code's `ram_types` list starts with
`DDR4`, a substring of `LPDDR4X`, so the substring scan stops at `"DDR4"`;
the Flipkart-path `clean_ram_info` does the same. -/
theorem ram_type_lpddr4x_shadowed_by_ddr4 :
    extractRamInfo [("ram", "16GB LPDDR4X")] =
      { size := "16GB", type := "DDR4", speed := "" } ∧
    (extractRamInfo [("ram", "16GB LPDDR4X")]).type ≠ "LPDDR4X" ∧
    (cleanRamInfo "16GB LPDDR4X".data).find? (·.1 = "type") =
      some ("type", "DDR4") := by
  decide

/-- C5 counterexample: the claim says the price normalizer keeps the decimal
point, so `"1,234.56"` becomes `1234.56`.  The detail-page price path uses
`BaseSpider._extract_price`, which keeps digits only: the result is `123456`,
not `1234.56` (the helper `parse_price`, which the claim describes, does
return `1234.56`, but the spider price path never calls it). -/
theorem current_price_decimal_point_dropped :
    extractCurrentPrice [none, some "1,234.56"] = 123456 ∧
    parse_price "1,234.56".data = mkRat 123456 100 ∧
    (mkRat 123456 100 : ℚ) = 1234.56 ∧
    (123456 : ℚ) ≠ 1234.56 := by
  refine ⟨by decide, by decide, by norm_num [Rat.mkRat_eq_divInt, Rat.divInt_eq_div], by norm_num⟩

/-- C5 (amended): the current price is the first price selector's text passed
through `_extract_price`, which removes commas and every non-digit character —
the decimal point included — so the stored price is always a whole number and
`"1,234.56"` yields `123456.0`. -/
theorem current_price_integer_valued :
    (∀ l : List Char, (extractPrice l).den = 1) ∧
    (∀ page : List (Option String),
      extractCurrentPrice page =
        ((page.findSome? id).map fun t => extractPrice t.data).getD 0) ∧
    extractCurrentPrice [none, some "1,234.56"] = 123456 := by
  refine ⟨extractPrice_den_one, ?_, by decide⟩
  intro page
  rw [extractCurrentPrice]
  cases page.findSome? id <;> rfl

/-- C6: the claim says `"350mm x 240mm x 18mm"` yields 35.0/24.0/1.8 cm.  The
dimension patterns accept a unit only after the third number, so this text
(one unit per number) matches nothing and every dimension stays `0.0`; the
single-trailing-unit form `"350 x 240 x 18 mm"` does convert to 35/24/1.8. -/
theorem dimensions_per_number_units_yield_zeros :
    extractDimensionsInfo [("dimensions", "350mm x 240mm x 18mm")] =
      { length := 0, width := 0, height := 0, weight := 0 } ∧
    extractDimensionsInfo [("dimensions", "350 x 240 x 18 mm")] =
      { length := 35, width := 24, height := mkRat 18 10, weight := 0 } ∧
    (mkRat 18 10 : ℚ) = 1.8 := by
  refine ⟨by decide, by decide, by norm_num [Rat.mkRat_eq_divInt, Rat.divInt_eq_div]⟩

/-- C7 counterexample: the claim says matched port tokens are case-normalized
so that `"USB 3.0"` and `"usb 3.0"` collapse into one entry.  The code adds
`match.group().strip()` verbatim to the set: both case variants survive and
the result has 4 entries, not 3. -/
theorem ports_case_variants_kept_distinct :
    extractPortsInfo [("ports", "USB 3.0, usb 3.0, HDMI, Type-C")] =
      ["HDMI", "Type-C", "USB 3.0", "usb 3.0"] ∧
    "USB 3.0" ∈ extractPortsInfo [("ports", "USB 3.0, usb 3.0, HDMI, Type-C")] ∧
    "usb 3.0" ∈ extractPortsInfo [("ports", "USB 3.0, usb 3.0, HDMI, Type-C")] ∧
    (extractPortsInfo [("ports", "USB 3.0, usb 3.0, HDMI, Type-C")]).length = 4 := by
  decide

/-- C7 (amended): for every spec table, the ports list holds each distinct
matched token string exactly once, in code-point sorted order; matching is
case-insensitive but tokens keep the casing they have in the text, so case
variants stay distinct entries. -/
theorem ports_sorted_and_distinct (specs : List (String × String)) :
    ((extractPortsInfo specs).Pairwise fun a b => strLe a b = true) ∧
    (extractPortsInfo specs).Nodup := by
  rw [extractPortsInfo]
  split
  · exact ⟨List.Pairwise.nil, List.nodup_nil⟩
  · exact ⟨pairwise_sortStrs _,
      ((perm_sortStrs _).nodup_iff).mpr (List.nodup_dedup _)⟩

/-- C8: on `"Intel Core i7-1260P, 12th Gen, 2.10GHz, 4 cores"` the processor
extractor returns exactly brand `Intel`, model `Core i7`, generation
`12th Gen`, speed `2.1 GHz` and cores `4`. -/
theorem processor_round_trip :
    extractProcessorInfo
      [("processor", "Intel Core i7-1260P, 12th Gen, 2.10GHz, 4 cores")] =
    .ok { brand := "Intel", model := "Core i7", generation := "12th Gen",
          speed := "2.1 GHz", cores := "4" } := by
  decide

/-- C9: upserting an observation for a product that already has a stored
record leaves `first_seen` unchanged (`$set` excludes it); only the very first
insert writes it, via `$setOnInsert`. -/
theorem first_seen_immutable_after_insert :
    (∀ (prior fresh : Laptop) (now : ℕ),
      (insertLaptop (some prior) fresh now).first_seen = prior.first_seen) ∧
    (∀ (fresh : Laptop) (now : ℕ), (insertLaptop none fresh now).first_seen = now) :=
  ⟨fun _ _ _ => rfl, fun _ _ => rfl⟩

/-- C10: whenever the processor extractor produces a speed string, its unit is
`"GHz"` — even for MHz inputs — because `"MHz" in match.upper()` can never
hold (`upper()` output has no lowercase `z`); in particular `"3200 MHz"` is
reported as `"3200.0 GHz"`. -/
theorem speed_unit_always_ghz :
    (∀ (specs : List (String × String)) (r : ProcessorRec),
      extractProcessorInfo specs = .ok r →
      r.speed = "" ∨ ∃ p, r.speed = p ++ " GHz") ∧
    extractProcessorInfo [("processor", "3200 MHz")] =
      .ok { speed := "3200.0 GHz" } := by
  refine ⟨?_, by decide⟩
  intro specs r h
  rw [extractProcessorInfo] at h
  split at h
  · cases h
    exact .inl rfl
  · split at h
    · cases h
    · cases h
      exact speedResult_ghz (by assumption)

theorem speed_unit_always_ghz_witness :
    ({ speed := "3200.0 GHz" } : ProcessorRec).speed = "" ∨
    ∃ p, ({ speed := "3200.0 GHz" } : ProcessorRec).speed = p ++ " GHz" :=
  speed_unit_always_ghz.1 [("processor", "3200 MHz")] _ (by decide)

end DataCollection

